import Mathlib

/-!
# Verification of the matchina matching engine

Shallow embedding of the core matching engine (src/order.rs, src/trade.rs,
src/orderbook.rs, src/engine.rs) and proofs about it.

Modelling decisions:
* `rust_decimal::Decimal` is an exact fixed-point decimal; the engine only
  uses exact operations on it (`+`, `-`, `min`, comparisons, zero test).
  We model quantities and prices as `Int`, which supports exactly these
  operations exactly and is evaluable by the kernel.  No part of the engine
  multiplies, divides or rescales, so the embedding is faithful on all the
  integral inputs used below and on the algebraic reasoning of the proofs.
* Order ids and trade ids are `u64` newtypes used only for equality; we
  model them as `Nat`.
* Rust mutation becomes explicit state passing; fallible Rust functions
  (returning `Result`) become `Except`; the `unreachable!()` panic inside
  `Ladder::remove` is modelled by a dedicated error value.
* `IndexMap<OrderId, Order>` is modelled as an association list; the engine
  uses only `contains_key`, `get`, `insert` and `remove` on it.
* The Rust status `Open` is spelled `opn` (a Lean keyword) and `Partial`
  is spelled `part` (cannot be used as a Lean name).
-/

deriving instance DecidableEq for Except

namespace Matchina

/- Prices and quantities (`Decimal` in the source) are `Int`; order and trade
ids (`u64` newtypes) are `Nat`.  Plain types are used rather than abbrevs so
that arithmetic automation sees the literals directly. -/

/-- src/order.rs `OrderSide`. -/
inductive OrderSide where
  | ask
  | bid
deriving DecidableEq

/-- src/order.rs `impl Not for OrderSide`. -/
def OrderSide.opposite : OrderSide → OrderSide
  | .ask => .bid
  | .bid => .ask

/-- src/order.rs `TimeInForce`. -/
inductive TimeInForce where
  | goodTilCancel (post_only : Bool)
  | immediateOrCancel (all_or_none : Bool)
deriving DecidableEq

/-- src/order.rs `OrderType`. -/
inductive OrderType where
  | limit (limit_price : Int) (time_in_force : TimeInForce)
  | market (all_or_none : Bool)
deriving DecidableEq

/-- src/order.rs `OrderStatus` (`opn` = Rust `Open`, `part` = Rust `Partial`). -/
inductive OrderStatus where
  | opn
  | part
  | cancelled
  | closed
  | completed
deriving DecidableEq

/-- src/order.rs `Order`. -/
structure Order where
  id : Nat
  side : OrderSide
  type_ : OrderType
  order_quantity : Int
  filled_quantity : Int
  status : OrderStatus
deriving DecidableEq

namespace Order

/-- src/order.rs `Order::limit_order` (argument order as in the source:
`(id, side, quantity, limit_price)`). -/
def limit_order (id : Nat) (side : OrderSide) (quantity : Int)
    (limit_price : Int) : Order :=
  { id := id, side := side
    type_ := .limit limit_price (.goodTilCancel false)
    order_quantity := quantity, filled_quantity := 0, status := .opn }

/-- src/order.rs `Order::market_order`. -/
def market_order (id : Nat) (side : OrderSide) (quantity : Int) : Order :=
  { id := id, side := side
    type_ := .market false
    order_quantity := quantity, filled_quantity := 0, status := .opn }

/-- src/order.rs `Order::remaining`. -/
def remaining (o : Order) : Int := o.order_quantity - o.filled_quantity

/-- src/order.rs `Order::limit_price`. -/
def limit_price (o : Order) : Option Int :=
  match o.type_ with
  | .limit p _ => some p
  | .market _ => none

/-- src/order.rs `Order::can_trade`. -/
def can_trade (o other : Order) : Int := min o.remaining other.remaining

/-- src/order.rs `Order::is_bookable`. -/
def is_bookable (o : Order) : Bool :=
  match o.type_ with
  | .limit _ _ => true
  | .market _ => false

/-- src/order.rs `Order::is_closed`. -/
def is_closed (o : Order) : Bool :=
  match o.status with
  | .cancelled | .closed | .completed => true
  | _ => false

/-- src/order.rs `Flags::is_all_or_none` for `Order`. -/
def is_all_or_none (o : Order) : Bool :=
  match o.type_ with
  | .market aon => aon
  | .limit _ (.immediateOrCancel aon) => aon
  | _ => false

/-- src/order.rs `Flags::is_immediate_or_cancel` for `Order`. -/
def is_immediate_or_cancel (o : Order) : Bool :=
  match o.type_ with
  | .limit _ (.immediateOrCancel _) => true
  | .market _ => true
  | _ => false

/-- src/order.rs `Flags::is_post_only` for `Order`. -/
def is_post_only (o : Order) : Bool :=
  match o.type_ with
  | .limit _ (.goodTilCancel post_only) => post_only
  | _ => false

/-- Modelled from the spec: `is_fill_or_kill` is called by `match_order!` in
src/orderbook.rs but its definition is missing from the `Flags` impl in
src/order.rs.  Following the spec (§4.5.1: "Fill-or-Kill (Limit+FOK or
similarly-flagged IOC with `all_or_none`) ... 'AllOrNone' on a market order
is treated the same") and the repository's own tests (which build FOK orders
as `Limit` + `ImmediateOrCancel` with the flag set), a fill-or-kill order is
a limit IOC order with the all-or-none flag, or an all-or-none market order. -/
def is_fill_or_kill (o : Order) : Bool :=
  match o.type_ with
  | .limit _ (.immediateOrCancel aon) => aon
  | .market aon => aon
  | _ => false

/-- Comparison of optional prices, mirroring Rust `Option<Decimal>: Ord`
(`None` sorts before `Some`). -/
def optPriceCmp : Option Int → Option Int → Ordering
  | none, none => .eq
  | none, some _ => .lt
  | some _, none => .gt
  | some a, some b => if a < b then .lt else if a = b then .eq else .gt

/-- src/order.rs `impl PartialOrd for Order`: equal ids compare equal,
otherwise the optional limit prices are compared. -/
def cmpOrd (a b : Order) : Ordering :=
  if a.id = b.id then .eq else optPriceCmp a.limit_price b.limit_price

/-- Rust `a <= b` on orders (derived from `partial_cmp`, which is total here). -/
def leOrd (a b : Order) : Bool :=
  match cmpOrd a b with
  | .gt => false
  | _ => true

/-- Rust `a >= b` on orders. -/
def geOrd (a b : Order) : Bool :=
  match cmpOrd a b with
  | .lt => false
  | _ => true

/-- src/order.rs `Order::matches` (taker = self); `matches` is a reserved
word in Lean, hence the `B` suffix. -/
def matchesB (taker maker : Order) : Bool :=
  if taker.is_closed || maker.is_closed then false
  else
    match taker.type_ with
    | .limit _ _ =>
      match taker.side, maker.side with
      | .ask, .bid => leOrd taker maker
      | .bid, .ask => geOrd taker maker
      | _, _ => false
    | .market _ => true

/-- src/order.rs `OrderError`. -/
inductive Error where
  | overfill (fill remaining : Int)
deriving DecidableEq

/-- src/order.rs `Order::fill`. -/
def fill (o : Order) (quantity : Int) : Except Error Order :=
  if quantity > o.remaining then
    .error (.overfill quantity o.remaining)
  else
    .ok { o with
      filled_quantity := o.filled_quantity + quantity
      status :=
        if o.filled_quantity + quantity = o.order_quantity then .completed else .part }

/-- src/order.rs `Order::cancel`. -/
def cancel (o : Order) : Order :=
  match o.status with
  | .opn => { o with status := .cancelled }
  | .part => { o with status := .closed }
  | _ => o

end Order

/-- src/trade.rs `Trade`. -/
structure Trade where
  id : Nat
  taker : Nat
  maker : Nat
  price : Int
  quantity : Int
deriving DecidableEq

/-- src/trade.rs `TradeError`. -/
inductive TradeError where
  | makerWithoutLimitPrice (id : Nat)
  | orderError (e : Order.Error)
deriving DecidableEq

/-- src/trade.rs `Trade::new`.  The Rust code draws the next trade id from a
process-global monotonic counter; we pass the counter explicitly and return
the filled taker and maker (the Rust code mutates them in place). -/
def Trade.new (taker maker : Order) (traded : Int) (tid : Nat) :
    Except TradeError (Trade × Order × Order) :=
  match maker.limit_price with
  | none => .error (.makerWithoutLimitPrice maker.id)
  | some price =>
    match taker.fill traded with
    | .error e => .error (.orderError e)
    | .ok taker' =>
      match maker.fill traded with
      | .error e => .error (.orderError e)
      | .ok maker' =>
        .ok ({ id := tid, taker := taker'.id, maker := maker'.id,
               price := price, quantity := traded }, taker', maker')

/-- src/orderbook.rs `PriceLevel` (`orders` front = Rust `VecDeque` front). -/
structure PriceLevel where
  orders : List Order
  quantity : Int
  price : Int
deriving DecidableEq

namespace PriceLevel

/-- src/orderbook.rs `PriceLevel::new`. -/
def new (price : Int) : PriceLevel := { orders := [], quantity := 0, price := price }

/-- src/orderbook.rs `PriceLevel::is_closed`. -/
def is_closed (l : PriceLevel) : Bool := l.quantity = 0

/-- src/orderbook.rs `PriceLevel::matches`; `matches` is a reserved word in
Lean, hence the `B` suffix. -/
def matchesB (l : PriceLevel) (order : Order) : Bool :=
  if l.is_closed || order.is_closed then false
  else
    match order.limit_price with
    | some p =>
      match order.side with
      | .ask => p ≤ l.price
      | .bid => p ≥ l.price
    | none => true

end PriceLevel

/-- The id→order index (`IndexMap<Nat, Order>` in src/orderbook.rs),
modelled as an association list; the engine uses only `contains_key`,
`get`, `insert` and `remove` on it. -/
abbrev OrdersIndex := List (Nat × Order)

/-- `IndexMap::get`. -/
def lookupOrder : OrdersIndex → Nat → Option Order
  | [], _ => none
  | (k, v) :: rest, i => if k = i then some v else lookupOrder rest i

/-- `IndexMap::insert` (replaces the value at an existing key, otherwise
appends at the end, as `IndexMap` does). -/
def insertOrder : OrdersIndex → Nat → Order → OrdersIndex
  | [], i, o => [(i, o)]
  | (k, v) :: rest, i, o =>
    if k = i then (k, o) :: rest else (k, v) :: insertOrder rest i o

/-- `IndexMap::remove` (drops the entry at the key, if present). -/
def removeOrder : OrdersIndex → Nat → OrdersIndex
  | [], _ => []
  | (k, v) :: rest, i => if k = i then rest else (k, v) :: removeOrder rest i

/-- src/orderbook.rs `OrderbookError`.  `levelMissing` models the
`unreachable!()` panic in `Ladder::remove` (the level for a resting order's
price is absent). -/
inductive OrderbookError where
  | orderDuplicated (id : Nat)
  | orderToInsertWithNoLimitPrice (o : Order)
  | orderToRemoveWithNoLimitPrice (o : Order)
  | orderToCancelNotFound (id : Nat)
  | orderToMatchNotFound (id : Nat)
  | tradeError (e : TradeError)
  | levelMissing (o : Order)
deriving DecidableEq

/-- A ladder is the price-ordered list of its levels, best price first
(`BTreeMap<Int, PriceLevel>` for asks, `BTreeMap<Reverse<Int>,
PriceLevel>` for bids; iteration and `pop_first` work from the front). -/
abbrev LadderLevels := List PriceLevel

/-- Key order of the ask ladder: lower price first. -/
def askBefore (a b : Int) : Bool := a < b

/-- Key order of the bid ladder (`Reverse<Int>` keys): higher price
first. -/
def bidBefore (a b : Int) : Bool := b < a

/-- Helper of `ladderInsert`: find-or-create the level at price `p` in a list
sorted by `before`, then `quantity += remaining; push_back`. -/
def ladderInsertGo (before : Int → Int → Bool) (p : Int)
    (o : Order) : LadderLevels → LadderLevels
  | [] => [{ PriceLevel.new p with quantity := o.remaining, orders := [o] }]
  | lvl :: rest =>
    if lvl.price = p then
      { lvl with quantity := lvl.quantity + o.remaining, orders := lvl.orders ++ [o] } :: rest
    else if before p lvl.price then
      { PriceLevel.new p with quantity := o.remaining, orders := [o] } :: lvl :: rest
    else
      lvl :: ladderInsertGo before p o rest

/-- src/orderbook.rs `Ladder::insert` (both impls, parametrised by the key
order). -/
def ladderInsert (before : Int → Int → Bool) (o : Order)
    (levels : LadderLevels) : Except OrderbookError LadderLevels :=
  match o.limit_price with
  | none => .error (.orderToInsertWithNoLimitPrice o)
  | some p => .ok (ladderInsertGo before p o levels)

/-- Helper of `Ladder::remove`: Rust removes the first queued order whose id
matches; absent ids leave the queue unchanged. -/
def removeFirstById (i : Nat) : List Order → List Order
  | [] => []
  | o :: rest => if o.id = i then rest else o :: removeFirstById i rest

/-- Helper of `ladderRemove`: locate the level at price `p`.  A missing level
is the Rust `unreachable!()` panic. -/
def removeAtPrice (o : Order) (p : Int) :
    LadderLevels → Except OrderbookError LadderLevels
  | [] => .error (.levelMissing o)
  | lvl :: rest =>
    if lvl.price = p then
      if lvl.orders.length = 1 then .ok rest
      else
        let lvl' := { lvl with quantity := lvl.quantity - o.remaining
                               orders := removeFirstById o.id lvl.orders }
        .ok (lvl' :: rest)
    else
      match removeAtPrice o p rest with
      | .error e => .error e
      | .ok rest' => .ok (lvl :: rest')

/-- src/orderbook.rs `Ladder::remove` (both impls; key order is irrelevant
because the level is located by price equality). -/
def ladderRemove (o : Order) (levels : LadderLevels) :
    Except OrderbookError LadderLevels :=
  match o.limit_price with
  | none => .error (.orderToRemoveWithNoLimitPrice o)
  | some p => removeAtPrice o p levels

/-- src/orderbook.rs `LadderWrapper::peek_top`: the head order of the best
level, resolved through the id index. -/
def peekTopLevels (levels : LadderLevels) (orders : OrdersIndex) : Option Order :=
  match levels with
  | [] => none
  | lvl :: _ =>
    match lvl.orders with
    | [] => none
    | front :: _ => lookupOrder orders front.id

/-- The FOK probe of `match_order!` in src/orderbook.rs: walk the opposite
ladder, subtracting each matching level's aggregate quantity from the
incoming order's remaining; feasible iff the running remaining reaches zero. -/
def fokCanFill (incoming : Order) : Int → LadderLevels → Bool
  | _, [] => false
  | remaining, lvl :: rest =>
    if incoming.is_closed || !(lvl.matchesB incoming) then false
    else if remaining - lvl.quantity ≤ 0 then true
    else fokCanFill incoming (remaining - lvl.quantity) rest

/-- The inner maker loop of `match_order!`: iterate over every maker queued at
the level (the Rust loop has no early exit), build a trade against each and
fill both sides.  Returns the updated incoming order, the updated maker
queue, the trades in order, the next trade id, the total traded quantity,
the number of completed makers, and whether any trade was constructed. -/
def fillMakers (incoming : Order) (makers : List Order) (tid : Nat) :
    Except OrderbookError
      (Order × List Order × List Trade × Nat × Int × Nat × Bool) :=
  match makers with
  | [] => .ok (incoming, [], [], tid, 0, 0, false)
  | maker :: rest =>
    let traded := incoming.can_trade maker
    match Trade.new incoming maker traded tid with
    | .error e => .error (.tradeError e)
    | .ok (trade, incoming', maker') =>
      match fillMakers incoming' rest (tid + 1) with
      | .error e => .error e
      | .ok (incFinal, rest', trades, tidF, total, completed, _) =>
        .ok (incFinal, maker' :: rest', trade :: trades, tidF,
             traded + total, (if maker'.is_closed then 1 else 0) + completed, true)

/-- The per-level epilogue of `match_order!`: pop the counted completed makers
from the front of the queue, deleting each from the id index. -/
def popCompleted : Nat → List Order → OrdersIndex → List Order × OrdersIndex
  | 0, makers, orders => (makers, orders)
  | _ + 1, [], orders => ([], orders)
  | n + 1, m :: rest, orders => popCompleted n rest (removeOrder orders m.id)

/-- One level of the match walk of `match_order!`: run the maker loop, then
`quantity -= total_traded`, pop the completed makers.  Returns the updated
incoming order, the updated level, the updated index, trades, next trade id
and the `matched` contribution. -/
def processLevel (incoming : Order) (lvl : PriceLevel) (orders : OrdersIndex)
    (tid : Nat) :
    Except OrderbookError (Order × PriceLevel × OrdersIndex × List Trade × Nat × Bool) :=
  match fillMakers incoming lvl.orders tid with
  | .error e => .error e
  | .ok (incoming', makers', trades, tid', total, completed, matchedHere) =>
    let (makers'', orders') := popCompleted completed makers' orders
    .ok (incoming', { lvl with orders := makers'', quantity := lvl.quantity - total },
         orders', trades, tid', matchedHere)

/-- The outer level walk of `match_order!`: process levels best-first while
the incoming order is open and the level matches; count the levels whose
quantity hit zero (they are popped from the front afterwards, mirroring the
`pop_first` loop). -/
def walkLevels (incoming : Order) (levels : LadderLevels) (orders : OrdersIndex)
    (tid : Nat) :
    Except OrderbookError
      (Order × LadderLevels × OrdersIndex × List Trade × Nat × Bool × Nat) :=
  match levels with
  | [] => .ok (incoming, [], orders, [], 0, false, tid)
  | lvl :: rest =>
    if incoming.is_closed || !(lvl.matchesB incoming) then
      .ok (incoming, lvl :: rest, orders, [], 0, false, tid)
    else
      match processLevel incoming lvl orders tid with
      | .error e => .error e
      | .ok (inc1, lvl1, orders1, trades1, tid1, matched1) =>
        match walkLevels inc1 rest orders1 tid1 with
        | .error e => .error e
        | .ok (inc2, rest2, orders2, trades2, drained2, matched2, tid2) =>
          .ok (inc2, lvl1 :: rest2, orders2, trades1 ++ trades2,
               (if lvl1.quantity = 0 then 1 else 0) + drained2,
               matched1 || matched2, tid2)

/-- src/orderbook.rs `match_order!`, parametrised by the own-side ladder key
order (the macro is expanded once per side).  Returns `matched`, the final
incoming order (the macro mutates its argument in place), the updated index,
trade log, own ladder, opposite ladder and next trade id. -/
def matchOrder (ownBefore : Int → Int → Bool) (incoming : Order)
    (orders : OrdersIndex) (trades : List Trade)
    (ownLadder oppLadder : LadderLevels) (tid : Nat) :
    Except OrderbookError
      (Bool × Order × OrdersIndex × List Trade × LadderLevels × LadderLevels × Nat) :=
  if incoming.is_post_only &&
      (match peekTopLevels oppLadder orders with
       | some top => incoming.matchesB top
       | none => false) then
    .ok (false, incoming.cancel, orders, trades, ownLadder, oppLadder, tid)
  else if incoming.is_fill_or_kill && !(fokCanFill incoming incoming.remaining oppLadder) then
    .ok (false, incoming.cancel, orders, trades, ownLadder, oppLadder, tid)
  else
    match walkLevels incoming oppLadder orders tid with
    | .error e => .error e
    | .ok (inc1, opp1, orders1, newTrades, drained, matched, tid1) =>
      let opp2 := opp1.drop drained
      let trades1 := trades ++ newTrades
      if inc1.is_immediate_or_cancel then
        .ok (matched, inc1.cancel, orders1, trades1, ownLadder, opp2, tid1)
      else if !inc1.is_closed && inc1.is_bookable then
        match ladderInsert ownBefore inc1 ownLadder with
        | .error e => .error e
        | .ok own1 =>
          .ok (matched, inc1, insertOrder orders1 inc1.id inc1, trades1, own1, opp2, tid1)
      else
        .ok (matched, inc1, orders1, trades1, ownLadder, opp2, tid1)

/-- src/orderbook.rs `Orderbook`.  `nextTradeId` threads the process-global
trade-id counter (zero for a fresh process). -/
structure Orderbook where
  asks : LadderLevels
  bids : LadderLevels
  orders : OrdersIndex
  trades : List Trade
  nextTradeId : Nat
deriving DecidableEq

namespace Orderbook

/-- `Orderbook::default()`. -/
def empty : Orderbook := { asks := [], bids := [], orders := [], trades := [], nextTradeId := 0 }

/-- src/orderbook.rs `Orderbook::peek_top`. -/
def peek_top (b : Orderbook) (side : OrderSide) : Option Order :=
  match side with
  | .ask => peekTopLevels b.asks b.orders
  | .bid => peekTopLevels b.bids b.orders

/-- src/orderbook.rs `Orderbook::handle_create`.  Returns the match result,
the final state of the submitted order (mutated in place by the Rust macro)
and the updated book.  On an internal error the Rust book may retain partial
mutations; no theorem below concerns the book after an internal error. -/
def handle_create (b : Orderbook) (o : Order) :
    Except OrderbookError Bool × Order × Orderbook :=
  if (lookupOrder b.orders o.id).isSome then
    (.error (.orderDuplicated o.id), o, b)
  else
    match o.side with
    | .ask =>
      match matchOrder askBefore o b.orders b.trades b.asks b.bids b.nextTradeId with
      | .error e => (.error e, o, b)
      | .ok (m, o', orders', trades', own', opp', tid') =>
        (.ok m, o', { asks := own', bids := opp', orders := orders',
                      trades := trades', nextTradeId := tid' })
    | .bid =>
      match matchOrder bidBefore o b.orders b.trades b.bids b.asks b.nextTradeId with
      | .error e => (.error e, o, b)
      | .ok (m, o', orders', trades', own', opp', tid') =>
        (.ok m, o', { asks := opp', bids := own', orders := orders',
                      trades := trades', nextTradeId := tid' })

/-- src/orderbook.rs `Orderbook::handle_cancel`. -/
def handle_cancel (b : Orderbook) (order_id : Nat) :
    Except OrderbookError Order × Orderbook :=
  match lookupOrder b.orders order_id with
  | none => (.error (.orderToCancelNotFound order_id), b)
  | some o =>
    let orders' := removeOrder b.orders order_id
    match o.side with
    | .ask =>
      match ladderRemove o b.asks with
      | .error e => (.error e, { b with orders := orders' })
      | .ok asks' => (.ok o, { b with orders := orders', asks := asks' })
    | .bid =>
      match ladderRemove o b.bids with
      | .error e => (.error e, { b with orders := orders' })
      | .ok bids' => (.ok o, { b with orders := orders', bids := bids' })

end Orderbook

/-- src/order.rs `OrderRequest`. -/
inductive OrderRequest where
  | create (account_id : String) (order_id : Nat) (pair : String)
      (side : OrderSide) (limit_price : Option Int) (quantity : Int)
  | cancel (order_id : Nat)

/-- src/engine.rs `Engine`. -/
structure Engine where
  pair : String
  orderbook : Orderbook

/-- src/engine.rs `Engine::new`. -/
def Engine.new (pair : String) : Engine := { pair := pair, orderbook := .empty }

/-- src/engine.rs `Engine::process`.  The order construction transcribes the
source call `Order::limit_order(order_id.into(), side, limit_price, quantity)`
with the arguments in the source's order; results of `handle_create` /
`handle_cancel` are discarded (`let _ = ...`). -/
def Engine.process (e : Engine) (req : OrderRequest) : Engine :=
  match req with
  | .create _ order_id _ side limit_price quantity =>
    match limit_price with
    | some lp =>
      let order := Order.limit_order order_id side lp quantity
      { e with orderbook := (e.orderbook.handle_create order).2.2 }
    | none =>
      let order := Order.market_order order_id side quantity
      { e with orderbook := (e.orderbook.handle_create order).2.2 }
  | .cancel order_id =>
    { e with orderbook := (e.orderbook.handle_cancel order_id).2 }

/-! ## Derived observations used by the invariant claims -/

/-- The cached-aggregate invariant of a price level (spec §3, §8.2): the
cached `quantity` is the sum of the remaining quantities of the queued
orders. -/
def levelSum (l : PriceLevel) : Int := (l.orders.map Order.remaining).sum

/-- Spec invariant 2 (§8): every level of either ladder carries the correct
cached quantity and is non-empty. -/
def LevelsInvariant (b : Orderbook) : Prop :=
  ∀ l ∈ b.asks ++ b.bids, l.quantity = levelSum l ∧ l.orders ≠ []

instance (b : Orderbook) : Decidable (LevelsInvariant b) := by
  unfold LevelsInvariant; infer_instance

/-- Best price on a side: the limit price of the order `peek_top` returns. -/
def bestPrice (b : Orderbook) (s : OrderSide) : Option Int :=
  (b.peek_top s).bind Order.limit_price

/-- Boolean form of the no-crossed-book check. -/
def noCrossB (b : Orderbook) : Bool :=
  match bestPrice b .ask, bestPrice b .bid with
  | some pa, some pb => pb ≤ pa
  | _, _ => true

/-- Spec invariant 3 (§8): whenever both a best ask and a best bid exist, the
best ask's price is at least the best bid's price. -/
def NoCrossedBook (b : Orderbook) : Prop := noCrossB b = true

instance (b : Orderbook) : Decidable (NoCrossedBook b) := by
  unfold NoCrossedBook; infer_instance

/-! ## Concrete executions (failing inputs of the code_bug claims) -/

/-- Spec §8 scenario 3 ("walk two levels"): submit `L(Bid,15,99,B1)`,
`L(Bid,16,20,B2)`, `L(Ask,15,100,A1)` into an empty book. -/
def c1Book : Orderbook :=
  ((((Orderbook.empty.handle_create (Order.limit_order 1 .bid 99 15)).2.2).handle_create
      (Order.limit_order 2 .bid 20 16)).2.2.handle_create
      (Order.limit_order 3 .ask 100 15)).2.2

/-- Two makers at one level, the first completes the taker: submit
`L(Ask,15,100,A1)`, `L(Ask,15,80,A2)`, then `L(Bid,15,100,B1)`. -/
def c2Book : Orderbook :=
  ((((Orderbook.empty.handle_create (Order.limit_order 1 .ask 100 15)).2.2).handle_create
      (Order.limit_order 2 .ask 80 15)).2.2.handle_create
      (Order.limit_order 3 .bid 100 15)).2.2

/-- Partially fill a maker, then cancel it: submit `L(Ask,15,100,A1)`,
`L(Ask,15,80,A2)`, `L(Bid,15,50,B1)`, then cancel order 1. -/
def c3Book : Orderbook :=
  (((((Orderbook.empty.handle_create (Order.limit_order 1 .ask 100 15)).2.2).handle_create
      (Order.limit_order 2 .ask 80 15)).2.2.handle_create
      (Order.limit_order 3 .bid 50 15)).2.2.handle_cancel 1).2

/-- Partially fill a maker, cancel it (zeroing the cached level quantity),
then submit a crossing bid: `L(Ask,15,100,A1)`, `L(Ask,15,50,A2)`,
`L(Bid,15,50,B1)`, cancel 1, `L(Bid,20,10,B2)`. -/
def c5Book : Orderbook :=
  ((((((Orderbook.empty.handle_create (Order.limit_order 1 .ask 100 15)).2.2).handle_create
      (Order.limit_order 2 .ask 50 15)).2.2.handle_create
      (Order.limit_order 3 .bid 50 15)).2.2.handle_cancel 1).2.handle_create
      (Order.limit_order 4 .bid 10 20)).2.2

/-- A fresh engine processing one Create request with `limit_price = 15`,
`quantity = 100`. -/
def c4Engine : Engine :=
  (Engine.new "ETH/USDT").process (.create "1" 1 "ETH/USDT" .bid (some 15) 100)

/-! ## Claim theorems -/

/-- C1: end-to-end scenario "walk two levels".  Submitting
`L(Bid,15,99,B1)`, `L(Bid,16,20,B2)`, `L(Ask,15,100,A1)` emits exactly the
two claimed trades in order ({taker 3, maker 2, price 16, qty 20}, then
{taker 3, maker 1, price 15, qty 80}) and `peek_top(Ask)` is `None`, but
`peek_top(Bid)` returns B1 with remaining 99, not 19: `peek_top` resolves
the head of the level through the id index, and the index copy of a
partially filled maker is never updated during the match walk (only the
level's copy is, which holds 19).  The repository's own test
`match_order_with_two_levels` asserts remaining 19 here. -/
theorem c1_walk_two_levels_eval :
    c1Book.trades =
      [{ id := 0, taker := 3, maker := 2, price := 16, quantity := 20 },
       { id := 1, taker := 3, maker := 1, price := 15, quantity := 80 }] ∧
    c1Book.peek_top .ask = none ∧
    (c1Book.peek_top .bid).map (fun o => (o.id, o.remaining)) = some (1, 99) ∧
    c1Book.bids.map (fun l => l.orders.map Order.remaining) = [[19]] ∧
    ¬ (c1Book.peek_top .bid).map (fun o => (o.id, o.remaining)) = some (1, 19) := by
  decide

/-- C2: the claim that no further trade is constructed at a level once the
incoming order is Completed, and hence every emitted trade has positive
quantity, fails: the inner maker loop of `match_order!` has no early exit,
so after the first maker completes the taker a zero-quantity trade is
constructed against the second maker of the same level. -/
theorem c2_zero_quantity_trade_eval :
    c2Book.trades =
      [{ id := 0, taker := 3, maker := 1, price := 15, quantity := 100 },
       { id := 1, taker := 3, maker := 2, price := 15, quantity := 0 }] ∧
    ¬ (∀ t ∈ c2Book.trades, 0 < t.quantity) := by
  decide

/-- C3: the level-quantity invariant fails after a cancel of a partially
filled maker: `handle_cancel` subtracts the *index* copy's remaining (stale,
100) from the level quantity although the level copy's remaining is 50, so
the level at price 15 ends with cached quantity 30 while its queued orders
sum to 80. -/
theorem c3_level_qty_eval :
    c3Book.asks.map (fun l => (l.price, l.quantity, l.orders.map Order.remaining)) =
      [(15, 30, [80])] ∧
    ¬ LevelsInvariant c3Book := by
  decide

/-- C4: `Engine::process` swaps the price and quantity arguments when it
builds a limit order (`Order::limit_order(order_id, side, limit_price,
quantity)` against the signature `(id, side, quantity, limit_price)`), so a
Create request with `limit_price = 15`, `quantity = 100` rests an order with
limit price 100 and order quantity 15 — not limit price 15 and quantity 100
as the claim states. -/
theorem c4_engine_swaps_price_and_quantity :
    (c4Engine.orderbook.peek_top .bid).map (fun o => (o.limit_price, o.order_quantity)) =
      some (some 100, 15) ∧
    ¬ (c4Engine.orderbook.peek_top .bid).map (fun o => (o.limit_price, o.order_quantity)) =
      some (some 15, 100) := by
  decide

/-- C5: the no-crossed-book invariant fails on a reachable state whose final
operation is a submit: cancelling a partially filled maker leaves the best
ask level with cached quantity 0 but a live order, so a later crossing bid
does not match that level (`PriceLevel::matches` sees a "closed" level) and
rests instead — leaving best ask price 15 below best bid price 20. -/
theorem c5_crossed_book_eval :
    bestPrice c5Book .ask = some 15 ∧
    bestPrice c5Book .bid = some 20 ∧
    ¬ NoCrossedBook c5Book := by
  decide

/-! ## C8: the order status invariant -/

/-- The status invariant claimed for orders (spec §3): `Completed` exactly
when fully filled, and `Partial` only strictly between empty and full. -/
def StatusInvariant (o : Order) : Prop :=
  (o.status = .completed ↔ o.filled_quantity = o.order_quantity) ∧
  (o.status = .part → 0 < o.filled_quantity ∧ o.filled_quantity < o.order_quantity)

instance (o : Order) : Decidable (StatusInvariant o) := by
  unfold StatusInvariant; infer_instance

/-- The result of `fill(0)` on a fresh one-lot limit order. -/
def c8FilledZero : Order :=
  { id := 1, side := .bid, type_ := .limit 10 (.goodTilCancel false)
    order_quantity := 1, filled_quantity := 0, status := .part }

/-- C8 counterexample: `fill(q)` sets the status to `Partial` whenever the
order is not fully filled afterwards, even for `q = 0` (which satisfies
`q ≤ remaining`), producing a `Partial` order with `filled = 0`. -/
theorem c8_fill_zero_counterexample :
    (Order.limit_order 1 .bid 1 10).fill 0 = .ok c8FilledZero ∧
    c8FilledZero.status = .part ∧ c8FilledZero.filled_quantity = 0 ∧
    ¬ StatusInvariant c8FilledZero := by
  decide

/-- Orders reachable through the constructors (with positive quantity, as
the spec's data model requires) and sequences of strictly positive fills
(`fill q` succeeding forces `q ≤ remaining`) and cancels. -/
inductive ReachableOrder : Order → Prop where
  | limit (id : Nat) (s : OrderSide) (q p : Int) :
      0 < q → ReachableOrder (Order.limit_order id s q p)
  | market (id : Nat) (s : OrderSide) (q : Int) :
      0 < q → ReachableOrder (Order.market_order id s q)
  | fill {o o' : Order} (q : Int) :
      ReachableOrder o → 0 < q → o.fill q = .ok o' → ReachableOrder o'
  | cancel {o : Order} : ReachableOrder o → ReachableOrder o.cancel

/-- Strengthened induction invariant for reachable orders. -/
def OrderAux (o : Order) : Prop :=
  0 ≤ o.filled_quantity ∧ o.filled_quantity ≤ o.order_quantity ∧
  0 < o.order_quantity ∧
  (o.status = .completed ↔ o.filled_quantity = o.order_quantity) ∧
  (o.status = .part → 0 < o.filled_quantity)

lemma reachable_aux {o : Order} (h : ReachableOrder o) : OrderAux o := by
  induction h with
  | limit id s q p hq =>
    refine ⟨le_refl 0, le_of_lt hq, hq, ?_, ?_⟩ <;>
      simp only [Order.limit_order] <;> simp <;> omega
  | market id s q hq =>
    refine ⟨le_refl 0, le_of_lt hq, hq, ?_, ?_⟩ <;>
      simp only [Order.market_order] <;> simp <;> omega
  | fill q hr hq heq ih =>
    rename_i o o'
    obtain ⟨oid, oside, oty, oQ, oF, ost⟩ := o
    obtain ⟨h0, hle, hqty, hiff, hpart⟩ := ih
    simp only [Order.remaining] at h0 hle hqty hiff hpart ⊢
    by_cases hover : q > oQ - oF
    · simp [Order.fill, Order.remaining, hover] at heq
    · simp [Order.fill, Order.remaining, hover] at heq
      subst heq
      unfold OrderAux
      by_cases hfull : oF + q = oQ <;>
        refine ⟨by simp; omega, by simp; omega, by simp; omega, ?_, ?_⟩ <;>
          simp [hfull] <;> omega
  | cancel hr ih =>
    rename_i o
    obtain ⟨oid, oside, oty, oQ, oF, ost⟩ := o
    obtain ⟨h0, hle, hqty, hiff, hpart⟩ := ih
    simp only [Order.remaining, OrderAux] at h0 hle hqty hiff hpart ⊢
    unfold Order.cancel
    cases ost <;> simp_all

/-- C8 (amended): for every order reachable through the constructors (with
`order_qty > 0`) and any sequence of `fill(q)` with `0 < q ≤ remaining` and
`cancel()`, the status invariant holds: `Completed ⇔ filled = order_qty` and
`Partial ⇒ 0 < filled < order_qty`.  (The original claim also allowed
`q = 0`, which `c8_fill_zero_counterexample` refutes.) -/
theorem c8_status_invariant (o : Order) (h : ReachableOrder o) : StatusInvariant o := by
  obtain ⟨h0, hle, hqty, hiff, hpart⟩ := reachable_aux h
  refine ⟨hiff, fun hp => ⟨hpart hp, ?_⟩⟩
  rcases lt_or_eq_of_le hle with hlt | hfull
  · exact hlt
  · exact absurd (hiff.mpr hfull) (by simp [hp])

/-- The order `Order.limit_order 1 .bid 5 10` after a fill of 3. -/
def c8Witness : Order :=
  { id := 1, side := .bid, type_ := .limit 10 (.goodTilCancel false)
    order_quantity := 5, filled_quantity := 3, status := .part }

theorem c8_status_invariant_witness :
    (Order.limit_order 1 .bid 5 10).fill 3 = .ok c8Witness ∧ StatusInvariant c8Witness :=
  ⟨by decide,
   c8_status_invariant c8Witness
     (ReachableOrder.fill 3 (ReachableOrder.limit 1 .bid 5 10 (by decide))
       (by decide) (by decide))⟩

/-! ## C6: fill-or-kill infeasibility -/

/-- The ladder opposite to a side: asks for a bid, bids for an ask. -/
def oppositeLadder (b : Orderbook) (s : OrderSide) : List PriceLevel :=
  match s with
  | .ask => b.bids
  | .bid => b.asks

/-- Running sums of a list of quantities, starting from `acc`. -/
def prefixSums (acc : Int) : List Int → List Int
  | [] => []
  | q :: qs => (acc + q) :: prefixSums (acc + q) qs

/-- The claim's infeasibility condition, in its own words: walking the
matching opposite levels from best to worst and summing their aggregate
quantities, the sum never reaches the order's remaining. -/
def FokInfeasible (o : Order) (levels : List PriceLevel) : Prop :=
  ∀ s ∈ prefixSums 0 ((levels.takeWhile fun l => l.matchesB o).map PriceLevel.quantity),
    s < o.remaining

instance (o : Order) (levels : List PriceLevel) : Decidable (FokInfeasible o levels) := by
  unfold FokInfeasible; infer_instance

lemma prefixSums_shift (qs : List Int) : ∀ a c : Int,
    prefixSums (a + c) qs = (prefixSums a qs).map (fun s => s + c) := by
  induction qs with
  | nil => intro a c; simp [prefixSums]
  | cons q qs ih =>
    intro a c
    simp only [prefixSums, List.map_cons]
    rw [show a + c + q = a + q + c from by omega, ih (a + q) c]

/-- If every partial sum of the matching prefix stays below `r`, the code's
FOK probe reports infeasible. -/
lemma fok_probe_infeasible {o : Order} (hopen : o.status = .opn) :
    ∀ (levels : List PriceLevel) (r : Int),
      (∀ s ∈ prefixSums 0 ((levels.takeWhile fun l => l.matchesB o).map PriceLevel.quantity),
        s < r) →
      fokCanFill o r levels = false := by
  intro levels
  induction levels with
  | nil => intro r _; rfl
  | cons lvl rest ih =>
    intro r h
    have hclosed : o.is_closed = false := by simp [Order.is_closed, hopen]
    by_cases hm : lvl.matchesB o
    · simp only [List.takeWhile_cons, hm, if_true] at h
      simp only [List.map_cons, prefixSums] at h
      have h1 : 0 + lvl.quantity < r := h _ (List.mem_cons_self _ _)
      have h2 : ∀ s ∈ prefixSums 0
          ((rest.takeWhile fun l => l.matchesB o).map PriceLevel.quantity),
          s < r - lvl.quantity := by
        intro s hs
        have hmem : s + lvl.quantity ∈ prefixSums (0 + lvl.quantity)
            ((rest.takeWhile fun l => l.matchesB o).map PriceLevel.quantity) := by
          rw [prefixSums_shift]
          exact List.mem_map_of_mem _ hs
        have := h _ (List.mem_cons_of_mem _ hmem)
        omega
      simp [fokCanFill, hclosed, hm]
      exact ⟨by omega, ih (r - lvl.quantity) h2⟩
    · have hm' : lvl.matchesB o = false := by simpa using hm
      simp [fokCanFill, hclosed, hm']

lemma fok_not_post_only {o : Order} (h : o.is_fill_or_kill = true) :
    o.is_post_only = false := by
  unfold Order.is_fill_or_kill at h
  unfold Order.is_post_only
  rcases hty : o.type_ with ⟨p, tif⟩ | aon
  · rcases tif with po | aon <;> simp_all
  · simp

/-- With the post-only gate off and an infeasible probe, `match_order!`
cancels the order and exits before touching any state. -/
lemma matchOrder_fok_infeasible (ownBefore : Int → Int → Bool) (o : Order)
    (orders : OrdersIndex) (trades : List Trade) (own opp : List PriceLevel) (tid : Nat)
    (hfok : o.is_fill_or_kill = true) (hpo : o.is_post_only = false)
    (hprobe : fokCanFill o o.remaining opp = false) :
    matchOrder ownBefore o orders trades own opp tid =
      .ok (false, o.cancel, orders, trades, own, opp, tid) := by
  unfold matchOrder
  simp [hpo, hfok, hprobe]

/-- C6: for every fill-or-kill submit whose probe is infeasible (the running
sum of the matching opposite levels' aggregate quantities, walked from best
to worst, never reaches the order's remaining), `handle_create` cancels the
order (status becomes Cancelled), returns `NotMatched` (`Ok(false)`), emits
no trade and mutates no book state (the book is returned unchanged — in
particular the opposite side is untouched, as in spec scenario 5). -/
theorem c6_fok_infeasible_cancels (b : Orderbook) (o : Order)
    (hfok : o.is_fill_or_kill = true) (hopen : o.status = .opn)
    (hfresh : lookupOrder b.orders o.id = none)
    (hinf : FokInfeasible o (oppositeLadder b o.side)) :
    b.handle_create o = (.ok false, o.cancel, b) ∧ (o.cancel).status = .cancelled := by
  have hcancel : (o.cancel).status = .cancelled := by simp [Order.cancel, hopen]
  refine ⟨?_, hcancel⟩
  have hpo := fok_not_post_only hfok
  unfold FokInfeasible at hinf
  cases hside : o.side with
  | ask =>
    rw [hside] at hinf
    have hprobe : fokCanFill o o.remaining b.bids = false :=
      fok_probe_infeasible hopen _ _ (by simpa [oppositeLadder] using hinf)
    simp [Orderbook.handle_create, hfresh, hside,
      matchOrder_fok_infeasible askBefore o b.orders b.trades b.asks b.bids b.nextTradeId
        hfok hpo hprobe]
  | bid =>
    rw [hside] at hinf
    have hprobe : fokCanFill o o.remaining b.asks = false :=
      fok_probe_infeasible hopen _ _ (by simpa [oppositeLadder] using hinf)
    simp [Orderbook.handle_create, hfresh, hside,
      matchOrder_fok_infeasible bidBefore o b.orders b.trades b.bids b.asks b.nextTradeId
        hfok hpo hprobe]

/-- Spec scenario 5's book: an empty book after submitting `L(Ask,15,80,A1)`. -/
def fokBook : Orderbook :=
  (Orderbook.empty.handle_create (Order.limit_order 1 .ask 80 15)).2.2

/-- Spec scenario 5's incoming order: `L(Bid,15,99,B1,FOK)`. -/
def fokOrder : Order :=
  { id := 5, side := .bid, type_ := .limit 15 (.immediateOrCancel true)
    order_quantity := 99, filled_quantity := 0, status := .opn }

theorem c6_fok_infeasible_cancels_witness :
    fokOrder.is_fill_or_kill = true ∧
    FokInfeasible fokOrder (oppositeLadder fokBook fokOrder.side) ∧
    fokBook.handle_create fokOrder = (.ok false, fokOrder.cancel, fokBook) ∧
    (fokOrder.cancel).status = .cancelled :=
  ⟨by decide, by decide,
   (c6_fok_infeasible_cancels fokBook fokOrder (by decide) (by decide)
     (by decide) (by decide)).1,
   (c6_fok_infeasible_cancels fokBook fokOrder (by decide) (by decide)
     (by decide) (by decide)).2⟩

/-! ## C7: post-only orders -/

/-- The ladder of a side: the one `match_order!` inserts the rested order
into. -/
def sideLadder (b : Orderbook) (s : OrderSide) : List PriceLevel :=
  match s with
  | .ask => b.asks
  | .bid => b.bids

/-- Boolean book-coherence check at the head of the opposite ladder: the
best level (if any) is non-empty and its front order resolves through the id
index to an order with the same id, the level's price as its limit price,
the opposite side, and a non-closed status.  These are consequences of the
book invariants of spec §3 for reachable books; they tie `peek_top` (which
reads the id index) to the level data the match walk reads. -/
def headCoherentB (b : Orderbook) (o : Order) : Bool :=
  match oppositeLadder b o.side with
  | [] => true
  | lvl :: _ =>
    match lvl.orders with
    | [] => false
    | f :: _ =>
      match lookupOrder b.orders f.id with
      | none => false
      | some top =>
        top.id == f.id && top.limit_price == some lvl.price &&
          top.side == o.side.opposite && top.is_closed == false

/-- Propositional form of `headCoherentB`. -/
def HeadCoherent (b : Orderbook) (o : Order) : Prop := headCoherentB b o = true

instance (b : Orderbook) (o : Order) : Decidable (HeadCoherent b o) := by
  unfold HeadCoherent; infer_instance

/-- Unpacking `HeadCoherent` when the opposite ladder is non-empty. -/
lemma headCoherent_spec {b : Orderbook} {o : Order} {lvl : PriceLevel}
    {rest : List PriceLevel} (hcoh : HeadCoherent b o)
    (hopp : oppositeLadder b o.side = lvl :: rest) :
    ∃ f others top, lvl.orders = f :: others ∧
      lookupOrder b.orders f.id = some top ∧ top.id = f.id ∧
      top.limit_price = some lvl.price ∧ top.side = o.side.opposite ∧
      top.is_closed = false := by
  unfold HeadCoherent headCoherentB at hcoh
  rw [hopp] at hcoh
  rcases hlo : lvl.orders with _ | ⟨f, others⟩
  · simp [hlo] at hcoh
  · rcases htop : lookupOrder b.orders f.id with _ | top
    · simp [hlo, htop] at hcoh
    · simp only [hlo, htop, Bool.and_eq_true, beq_iff_eq] at hcoh
      obtain ⟨⟨⟨htid, htl⟩, hts⟩, htc⟩ := hcoh
      exact ⟨f, others, top, rfl, htop, htid, htl, hts, by simpa using htc⟩

lemma lookup_insertOrder (m : OrdersIndex) (k : Nat) (v : Order) :
    lookupOrder (insertOrder m k v) k = some v := by
  induction m with
  | nil => simp [insertOrder, lookupOrder]
  | cons kv rest ih =>
    obtain ⟨k', v'⟩ := kv
    by_cases h : k' = k <;> simp [insertOrder, lookupOrder, h, ih]

lemma exists_mem_ladderInsertGo (before : Int → Int → Bool) (p : Int) (o : Order) :
    ∀ levels : List PriceLevel,
      ∃ lvl ∈ ladderInsertGo before p o levels, o ∈ lvl.orders := by
  intro levels
  induction levels with
  | nil =>
    refine ⟨{ PriceLevel.new p with quantity := o.remaining, orders := [o] }, ?_, ?_⟩ <;>
      simp [ladderInsertGo]
  | cons lvl rest ih =>
    by_cases h : lvl.price = p
    · refine ⟨{ lvl with quantity := lvl.quantity + o.remaining, orders := lvl.orders ++ [o] }, ?_, ?_⟩ <;>
        simp [ladderInsertGo, h]
    · by_cases h2 : before p lvl.price
      · refine ⟨{ PriceLevel.new p with quantity := o.remaining, orders := [o] }, ?_, ?_⟩ <;>
          simp [ladderInsertGo, h, h2]
      · obtain ⟨l, hl, ho⟩ := ih
        refine ⟨l, ?_, ho⟩
        simp only [ladderInsertGo, if_neg h, if_neg h2]
        exact List.mem_cons_of_mem _ hl

/-- A post-only order is a GTC limit order. -/
lemma post_only_shape {o : Order} (h : o.is_post_only = true) :
    ∃ p, o.type_ = .limit p (.goodTilCancel true) := by
  unfold Order.is_post_only at h
  rcases hty : o.type_ with ⟨p, tif⟩ | aon
  · rcases tif with po | aon
    · rw [hty] at h; simp at h; subst h; exact ⟨p, rfl⟩
    · rw [hty] at h; simp at h
  · rw [hty] at h; simp at h

/-- If the (coherent) top order of a level does not match the incoming limit
order, the level itself does not match it either: `PriceLevel::matches`
mirrors `Order::matches` at level granularity. -/
lemma level_no_match_of_top_no_match {o top : Order} {lvl : PriceLevel} {p : Int}
    (hty : o.type_ = .limit p (.goodTilCancel true)) (hopen : o.status = .opn)
    (hid : o.id ≠ top.id) (htl : top.limit_price = some lvl.price)
    (hts : top.side = o.side.opposite) (htc : top.is_closed = false)
    (hnm : o.matchesB top = false) : lvl.matchesB o = false := by
  have hclosed : o.is_closed = false := by simp [Order.is_closed, hopen]
  by_cases hlc : lvl.is_closed
  · simp [PriceLevel.matchesB, hlc]
  · have hlc' : lvl.is_closed = false := by simpa using hlc
    have hlp : o.limit_price = some p := by simp [Order.limit_price, hty]
    simp only [Order.matchesB, hclosed, htc, Bool.or_self, Bool.false_eq_true,
      if_false, hty] at hnm
    cases hside : o.side with
    | ask =>
      rw [hside] at hts
      simp only [OrderSide.opposite] at hts
      simp only [hside, hts] at hnm
      unfold Order.leOrd Order.cmpOrd Order.optPriceCmp at hnm
      rw [if_neg hid, hlp, htl] at hnm
      simp only [PriceLevel.matchesB, hlc', hclosed, Bool.or_self, Bool.false_eq_true,
        if_false, Order.limit_price, hty, hside]
      by_cases h1 : p < lvl.price <;> by_cases h2 : p = lvl.price <;>
        simp [h1, h2] at hnm ⊢ <;> omega
    | bid =>
      rw [hside] at hts
      simp only [OrderSide.opposite] at hts
      simp only [hside, hts] at hnm
      unfold Order.geOrd Order.cmpOrd Order.optPriceCmp at hnm
      rw [if_neg hid, hlp, htl] at hnm
      simp only [PriceLevel.matchesB, hlc', hclosed, Bool.or_self, Bool.false_eq_true,
        if_false, Order.limit_price, hty, hside]
      by_cases h1 : p < lvl.price <;> by_cases h2 : p = lvl.price <;>
        simp [h1, h2] at hnm ⊢ <;> omega

/-- `match_order!` on a crossing post-only order: cancel, `NotMatched`, no
state touched. -/
lemma matchOrder_post_only_cross (ownBefore : Int → Int → Bool) (o : Order)
    (orders : OrdersIndex) (trades : List Trade) (own opp : List PriceLevel) (tid : Nat)
    (hpo : o.is_post_only = true) (top : Order)
    (hpeek : peekTopLevels opp orders = some top) (hm : o.matchesB top = true) :
    matchOrder ownBefore o orders trades own opp tid =
      .ok (false, o.cancel, orders, trades, own, opp, tid) := by
  unfold matchOrder
  rw [hpeek]
  simp [hpo, hm]

/-- `match_order!` on a non-matching bookable GTC limit order: no trade, and
the order is rested on its own ladder and registered in the index. -/
lemma matchOrder_rests (ownBefore : Int → Int → Bool) (o : Order)
    (orders : OrdersIndex) (trades : List Trade) (own opp : List PriceLevel) (tid : Nat)
    (p : Int) (hty : o.type_ = .limit p (.goodTilCancel true)) (hopen : o.status = .opn)
    (hgateoff : (match peekTopLevels opp orders with
                 | some top => o.matchesB top
                 | none => false) = false)
    (hnomatch : ∀ lvl rest, opp = lvl :: rest → lvl.matchesB o = false) :
    matchOrder ownBefore o orders trades own opp tid =
      .ok (false, o, insertOrder orders o.id o, trades,
           ladderInsertGo ownBefore p o own, opp, tid) := by
  have hfok : o.is_fill_or_kill = false := by simp [Order.is_fill_or_kill, hty]
  have hioc : o.is_immediate_or_cancel = false := by
    simp [Order.is_immediate_or_cancel, hty]
  have hbook : o.is_bookable = true := by simp [Order.is_bookable, hty]
  have hlp : o.limit_price = some p := by simp [Order.limit_price, hty]
  have hclosed : o.is_closed = false := by simp [Order.is_closed, hopen]
  have hwalk : walkLevels o opp orders tid = .ok (o, opp, orders, [], 0, false, tid) := by
    cases opp with
    | nil => rfl
    | cons lvl rest =>
      have hm := hnomatch lvl rest rfl
      simp [walkLevels, hm, hclosed]
  unfold matchOrder
  rw [hgateoff, hwalk]
  simp [hfok, hioc, hbook, hclosed, ladderInsert, hlp]

/-- C7: a post-only submit that would cross (the top of the opposite ladder
exists and matches the order) is cancelled, returns `NotMatched` and leaves
the book — in particular the opposite side — unchanged; a post-only submit
that would not cross is rested normally: `NotMatched`, the order untouched
(still Open), no trade emitted, the opposite ladder unchanged, and the order
registered in the id index and queued in its own-side ladder.  The book
coherence hypothesis `HeadCoherent` ties the index entry of the best
opposite order to its level (spec §3 invariants). -/
theorem c7_post_only (b : Orderbook) (o : Order)
    (hpo : o.is_post_only = true) (hopen : o.status = .opn)
    (hfresh : lookupOrder b.orders o.id = none)
    (hcoh : HeadCoherent b o) :
    (∀ top, peekTopLevels (oppositeLadder b o.side) b.orders = some top →
       o.matchesB top = true →
       b.handle_create o = (.ok false, o.cancel, b) ∧ (o.cancel).status = .cancelled) ∧
    ((∀ top, peekTopLevels (oppositeLadder b o.side) b.orders = some top →
        o.matchesB top = false) →
      (b.handle_create o).1 = .ok false ∧
      (b.handle_create o).2.1 = o ∧
      ((b.handle_create o).2.2).trades = b.trades ∧
      oppositeLadder ((b.handle_create o).2.2) o.side = oppositeLadder b o.side ∧
      lookupOrder ((b.handle_create o).2.2).orders o.id = some o ∧
      ∃ lvl ∈ sideLadder ((b.handle_create o).2.2) o.side, o ∈ lvl.orders) := by
  obtain ⟨p, hty⟩ := post_only_shape hpo
  constructor
  · intro top hpeek hm
    have hcancel : (o.cancel).status = .cancelled := by simp [Order.cancel, hopen]
    refine ⟨?_, hcancel⟩
    cases hside : o.side with
    | ask =>
      rw [hside] at hpeek
      simp only [oppositeLadder] at hpeek
      simp [Orderbook.handle_create, hfresh, hside,
        matchOrder_post_only_cross askBefore o b.orders b.trades b.asks b.bids
          b.nextTradeId hpo top hpeek hm]
    | bid =>
      rw [hside] at hpeek
      simp only [oppositeLadder] at hpeek
      simp [Orderbook.handle_create, hfresh, hside,
        matchOrder_post_only_cross bidBefore o b.orders b.trades b.bids b.asks
          b.nextTradeId hpo top hpeek hm]
  · intro hnc
    have hgateoff : (match peekTopLevels (oppositeLadder b o.side) b.orders with
                     | some top => o.matchesB top
                     | none => false) = false := by
      cases hpeek : peekTopLevels (oppositeLadder b o.side) b.orders with
      | none => rfl
      | some top => simpa using hnc top hpeek
    have hnomatch : ∀ lvl rest, oppositeLadder b o.side = lvl :: rest →
        lvl.matchesB o = false := by
      intro lvl rest hopp
      obtain ⟨f, others, top, hlo, htop, htid, htl, hts, htc⟩ :=
        headCoherent_spec hcoh hopp
      have hpeek : peekTopLevels (oppositeLadder b o.side) b.orders = some top := by
        simp [peekTopLevels, hopp, hlo, htop]
      have hid : o.id ≠ top.id := by
        intro he
        rw [htid] at he
        rw [he] at hfresh
        rw [hfresh] at htop
        exact Option.noConfusion htop
      exact level_no_match_of_top_no_match hty hopen hid htl hts htc
        (hnc top hpeek)
    cases hside : o.side with
    | ask =>
      rw [hside] at hgateoff hnomatch
      simp only [oppositeLadder] at hgateoff hnomatch
      have hrest := matchOrder_rests askBefore o b.orders b.trades b.asks b.bids
        b.nextTradeId p hty hopen hgateoff hnomatch
      simp [Orderbook.handle_create, hfresh, hside, hrest, oppositeLadder, sideLadder,
        lookup_insertOrder]
      exact exists_mem_ladderInsertGo askBefore p o b.asks
    | bid =>
      rw [hside] at hgateoff hnomatch
      simp only [oppositeLadder] at hgateoff hnomatch
      have hrest := matchOrder_rests bidBefore o b.orders b.trades b.bids b.asks
        b.nextTradeId p hty hopen hgateoff hnomatch
      simp [Orderbook.handle_create, hfresh, hside, hrest, oppositeLadder, sideLadder,
        lookup_insertOrder]
      exact exists_mem_ladderInsertGo bidBefore p o b.bids

/-- Spec scenario 6's book: `L(Ask,15,100,A1)` resting. -/
def poBook : Orderbook :=
  (Orderbook.empty.handle_create (Order.limit_order 1 .ask 100 15)).2.2

/-- Spec scenario 6's incoming order: `L(Bid,15,99,B1,post_only)`. -/
def poOrder : Order :=
  { id := 5, side := .bid, type_ := .limit 15 (.goodTilCancel true)
    order_quantity := 99, filled_quantity := 0, status := .opn }

/-- The resting ask of scenario 6, as stored in `poBook`'s id index. -/
def poTop : Order := Order.limit_order 1 .ask 100 15

theorem c7_post_only_witness :
    poOrder.is_post_only = true ∧ HeadCoherent poBook poOrder ∧
    poOrder.matchesB poTop = true ∧
    poBook.handle_create poOrder = (.ok false, poOrder.cancel, poBook) ∧
    (poOrder.cancel).status = .cancelled :=
  ⟨by decide, by decide, by decide,
   ((c7_post_only poBook poOrder (by decide) (by decide) (by decide) (by decide)).1
     poTop (by decide) (by decide)).1,
   ((c7_post_only poBook poOrder (by decide) (by decide) (by decide) (by decide)).1
     poTop (by decide) (by decide)).2⟩

/-! ## C9: cancel semantics -/

/-- No duplicate keys in the id index (spec §3: no two resting orders share
an id). -/
def NoDupKeys (m : OrdersIndex) : Prop := (m.map Prod.fst).Nodup

instance (m : OrdersIndex) : Decidable (NoDupKeys m) := by
  unfold NoDupKeys; infer_instance

lemma lookup_eq_none_of_not_mem {m : OrdersIndex} {i : Nat}
    (h : i ∉ m.map Prod.fst) : lookupOrder m i = none := by
  induction m with
  | nil => rfl
  | cons kv rest ih =>
    obtain ⟨k, v⟩ := kv
    simp only [List.map_cons, List.mem_cons, not_or] at h
    obtain ⟨hk, hrest⟩ := h
    simp only [lookupOrder]
    rw [if_neg (fun he => hk he.symm)]
    exact ih hrest

lemma lookup_removeOrder_self {m : OrdersIndex} {i : Nat} (h : NoDupKeys m) :
    lookupOrder (removeOrder m i) i = none := by
  induction m with
  | nil => rfl
  | cons kv rest ih =>
    obtain ⟨k, v⟩ := kv
    unfold NoDupKeys at h
    simp only [List.map_cons, List.nodup_cons] at h
    obtain ⟨hk, hrest⟩ := h
    by_cases hki : k = i
    · subst hki
      simp only [removeOrder, if_pos rfl]
      exact lookup_eq_none_of_not_mem hk
    · simp only [removeOrder, if_neg hki, lookupOrder]
      exact ih hrest

/-- Number of orders carrying id `i` queued anywhere in a list of levels. -/
def countId (i : Nat) (levels : List PriceLevel) : Nat :=
  (levels.map (fun lvl => (lvl.orders.filter (fun x => x.id == i)).length)).sum

lemma removeFirstById_filter_zero {i : Nat} :
    ∀ xs : List Order, (xs.filter (fun x => x.id == i)).length = 1 →
      ((removeFirstById i xs).filter (fun x => x.id == i)).length = 0 := by
  intro xs
  induction xs with
  | nil => intro h; simpa using h
  | cons x rest ih =>
    intro h
    by_cases hx : x.id = i
    · simp only [List.filter_cons, hx, beq_self_eq_true, if_pos, List.length_cons] at h
      simp only [removeFirstById, if_pos hx]
      omega
    · have hx' : (x.id == i) = false := by simpa using hx
      simp only [List.filter_cons, hx', Bool.false_eq_true, if_false] at h
      simp only [removeFirstById, if_neg hx, List.filter_cons, hx', Bool.false_eq_true,
        if_false]
      exact ih h

lemma removeFirstById_length {i : Nat} :
    ∀ xs : List Order, xs.filter (fun x => x.id == i) ≠ [] →
      (removeFirstById i xs).length + 1 = xs.length := by
  intro xs
  induction xs with
  | nil => intro h; simp at h
  | cons x rest ih =>
    intro h
    by_cases hx : x.id = i
    · simp [removeFirstById, hx]
    · have hx' : (x.id == i) = false := by simpa using hx
      simp only [List.filter_cons, hx', Bool.false_eq_true, if_false] at h
      simp only [removeFirstById, if_neg hx, List.length_cons]
      rw [← ih h]

/-- Removing a uniquely-resting order from its ladder: the level at its
price is found, the order disappears from the ladder, and no level is left
empty. -/
lemma removeAtPrice_spec (o : Order) (p : Int) :
    ∀ levels : List PriceLevel,
      (∀ lvl ∈ levels, lvl.orders ≠ []) →
      (levels.map PriceLevel.price).Nodup →
      countId o.id levels = 1 →
      (∀ lvl ∈ levels, lvl.orders.filter (fun x => x.id == o.id) ≠ [] → p = lvl.price) →
      ∃ levels', removeAtPrice o p levels = .ok levels' ∧
        countId o.id levels' = 0 ∧
        (∀ lvl ∈ levels', lvl.orders ≠ []) := by
  intro levels
  induction levels with
  | nil => intro _ _ hcount _; simp [countId] at hcount
  | cons lvl rest ih =>
    intro hne hnodup hcount hat
    simp only [countId, List.map_cons, List.sum_cons] at hcount
    simp only [List.map_cons, List.nodup_cons] at hnodup
    obtain ⟨hpr, hnodup'⟩ := hnodup
    by_cases hp : lvl.price = p
    · have hrest0 : countId o.id rest = 0 := by
        by_contra hnz
        have : ∃ lvl' ∈ rest, (lvl'.orders.filter (fun x => x.id == o.id)).length ≠ 0 := by
          by_contra hall
          push_neg at hall
          have : countId o.id rest = 0 := by
            unfold countId
            rw [List.sum_eq_zero]
            intro n hn
            simp only [List.mem_map] at hn
            obtain ⟨lvl', hmem, hEqn⟩ := hn
            rw [← hEqn]
            exact hall lvl' hmem
          exact hnz this
        obtain ⟨lvl', hmem, hlen⟩ := this
        have hfil : lvl'.orders.filter (fun x => x.id == o.id) ≠ [] := by
          intro hnilf; rw [hnilf] at hlen; simp at hlen
        have hpl : p = lvl'.price := hat lvl' (List.mem_cons_of_mem _ hmem) hfil
        apply hpr
        rw [hp, hpl]
        exact List.mem_map_of_mem PriceLevel.price hmem
      have hrest0' : (rest.map
          (fun lvl => (lvl.orders.filter (fun x => x.id == o.id)).length)).sum = 0 := by
        simpa [countId] using hrest0
      have hlvl1 : (lvl.orders.filter (fun x => x.id == o.id)).length = 1 := by omega
      by_cases hlen : lvl.orders.length = 1
      · refine ⟨rest, ?_, hrest0, fun l hl => hne l (List.mem_cons_of_mem _ hl)⟩
        simp only [removeAtPrice, if_pos hp, if_pos hlen]
      · refine ⟨{ lvl with quantity := lvl.quantity - o.remaining, orders := removeFirstById o.id lvl.orders } :: rest, ?_, ?_, ?_⟩
        · simp only [removeAtPrice, if_pos hp, if_neg hlen]
        · simp only [countId, List.map_cons, List.sum_cons]
          have := removeFirstById_filter_zero lvl.orders hlvl1
          simp only [countId] at hrest0
          simp only [this, hrest0]
        · intro l hl
          rcases List.mem_cons.mp hl with hhead | htail
          · subst hhead
            have hfil : lvl.orders.filter (fun x => x.id == o.id) ≠ [] := by
              intro hnilf; rw [hnilf] at hlvl1; simp at hlvl1
            have hlensum := removeFirstById_length lvl.orders hfil
            intro hempty
            have hempty' : removeFirstById o.id lvl.orders = [] := hempty
            rw [hempty'] at hlensum
            simp only [List.length_nil, Nat.zero_add] at hlensum
            exact hlen hlensum.symm
          · exact hne l (List.mem_cons_of_mem _ htail)
    · have hlvl0 : (lvl.orders.filter (fun x => x.id == o.id)).length = 0 := by
        by_contra hnz
        have hfil : lvl.orders.filter (fun x => x.id == o.id) ≠ [] := by
          intro hnilf; rw [hnilf] at hnz; simp at hnz
        exact hp (hat lvl (List.mem_cons_self _ _) hfil).symm
      have hrest1 : countId o.id rest = 1 := by
        simp only [countId] at hcount ⊢; omega
      obtain ⟨rest', hok, hcnt', hne'⟩ :=
        ih (fun l hl => hne l (List.mem_cons_of_mem _ hl)) hnodup' hrest1
          (fun l hl => hat l (List.mem_cons_of_mem _ hl))
      refine ⟨lvl :: rest', ?_, ?_, ?_⟩
      · simp only [removeAtPrice, if_neg hp, hok]
      · simp only [countId, List.map_cons, List.sum_cons]
        simp only [countId] at hcnt'
        simp only [hlvl0, hcnt']
      · intro l hl
        rcases List.mem_cons.mp hl with hhead | htail
        · rw [hhead]; exact hne lvl (List.mem_cons_self _ _)
        · exact hne' l htail

/-- Well-formedness of the book for cancelling the resting order `o` (spec §3
invariants: unique ids, the order queued exactly once, in the level keyed by
its limit price, no empty levels, distinct level prices). -/
def CancelWf (b : Orderbook) (o : Order) : Prop :=
  NoDupKeys b.orders ∧
  o.limit_price.isSome = true ∧
  (∀ lvl ∈ sideLadder b o.side, lvl.orders ≠ []) ∧
  ((sideLadder b o.side).map PriceLevel.price).Nodup ∧
  countId o.id (sideLadder b o.side) = 1 ∧
  (∀ lvl ∈ sideLadder b o.side, lvl.orders.filter (fun x => x.id == o.id) ≠ [] →
    o.limit_price = some lvl.price)

instance (b : Orderbook) (o : Order) : Decidable (CancelWf b o) := by
  unfold CancelWf; infer_instance

/-- C9: `handle_cancel(i)` returns the resting order when `i` is in the id
index, removes it from the index and from its ladder level (dropping the
level if it empties, so no empty level remains), and leaves the opposite
ladder unchanged; a second cancel of the same id then fails with
`OrderToCancelNotFound`.  For an id not in the index it fails with
`OrderToCancelNotFound` and leaves the book unchanged. -/
theorem c9_handle_cancel (b : Orderbook) (i : Nat) :
    (∀ o, lookupOrder b.orders i = some o → o.id = i → CancelWf b o →
      (b.handle_cancel i).1 = .ok o ∧
      lookupOrder ((b.handle_cancel i).2).orders i = none ∧
      countId i (sideLadder ((b.handle_cancel i).2) o.side) = 0 ∧
      (∀ lvl ∈ sideLadder ((b.handle_cancel i).2) o.side, lvl.orders ≠ []) ∧
      oppositeLadder ((b.handle_cancel i).2) o.side = oppositeLadder b o.side ∧
      (((b.handle_cancel i).2).handle_cancel i).1 =
        .error (.orderToCancelNotFound i)) ∧
    (lookupOrder b.orders i = none →
      b.handle_cancel i = (.error (.orderToCancelNotFound i), b)) := by
  constructor
  · intro o hlook hoi hwf
    obtain ⟨hnodup, hlpS, hne, hpnodup, hcount, hat⟩ := hwf
    obtain ⟨p, hp⟩ := Option.isSome_iff_exists.mp hlpS
    obtain ⟨levels', hok, hcnt', hne'⟩ :=
      removeAtPrice_spec o p (sideLadder b o.side) hne hpnodup hcount
        (fun l hl hf => by rw [hat l hl hf] at hp; exact (Option.some.injEq _ _ ▸ hp).symm)
    have hlook2 : lookupOrder (removeOrder b.orders i) i = none :=
      lookup_removeOrder_self hnodup
    cases hside : o.side with
    | ask =>
      rw [hside] at hok
      simp only [sideLadder] at hok
      have hres : b.handle_cancel i =
          (.ok o, { b with orders := removeOrder b.orders i, asks := levels' }) := by
        simp only [Orderbook.handle_cancel, hlook, hside, ladderRemove, hp, hok]
      rw [hres]
      refine ⟨rfl, hlook2, ?_, ?_, rfl, ?_⟩
      · rw [← hoi]; simpa [sideLadder] using hcnt'
      · simpa [sideLadder] using hne'
      · unfold Orderbook.handle_cancel
        rw [hlook2]
    | bid =>
      rw [hside] at hok
      simp only [sideLadder] at hok
      have hres : b.handle_cancel i =
          (.ok o, { b with orders := removeOrder b.orders i, bids := levels' }) := by
        simp only [Orderbook.handle_cancel, hlook, hside, ladderRemove, hp, hok]
      rw [hres]
      refine ⟨rfl, hlook2, ?_, ?_, rfl, ?_⟩
      · rw [← hoi]; simpa [sideLadder] using hcnt'
      · simpa [sideLadder] using hne'
      · unfold Orderbook.handle_cancel
        rw [hlook2]
  · intro hnone
    unfold Orderbook.handle_cancel
    rw [hnone]

/-- Book for the C9 witness: two asks resting at the same level. -/
def c9Book : Orderbook :=
  ((Orderbook.empty.handle_create (Order.limit_order 1 .ask 100 15)).2.2.handle_create
    (Order.limit_order 2 .ask 80 15)).2.2

theorem c9_handle_cancel_witness :
    lookupOrder c9Book.orders 1 = some (Order.limit_order 1 .ask 100 15) ∧
    CancelWf c9Book (Order.limit_order 1 .ask 100 15) ∧
    (c9Book.handle_cancel 1).1 = .ok (Order.limit_order 1 .ask 100 15) ∧
    lookupOrder ((c9Book.handle_cancel 1).2).orders 1 = none ∧
    (((c9Book.handle_cancel 1).2).handle_cancel 1).1 =
      .error (.orderToCancelNotFound 1) :=
  ⟨by decide, by decide,
   ((c9_handle_cancel c9Book 1).1 (Order.limit_order 1 .ask 100 15)
     (by decide) (by decide) (by decide)).1,
   ((c9_handle_cancel c9Book 1).1 (Order.limit_order 1 .ask 100 15)
     (by decide) (by decide) (by decide)).2.1,
   ((c9_handle_cancel c9Book 1).1 (Order.limit_order 1 .ask 100 15)
     (by decide) (by decide) (by decide)).2.2.2.2.2⟩

/-! ## C10: duplicate-id rejection is keyed to the current index only -/

/-- Whether an error is the duplicate-id rejection. -/
def isDupError : OrderbookError → Bool
  | .orderDuplicated _ => true
  | _ => false

lemma fillMakers_error_not_dup :
    ∀ (makers : List Order) (incoming : Order) (tid : Nat) (e : OrderbookError),
      fillMakers incoming makers tid = .error e → isDupError e = false := by
  intro makers
  induction makers with
  | nil => intro incoming tid e h; simp [fillMakers] at h
  | cons maker rest ih =>
    intro incoming tid e h
    simp only [fillMakers] at h
    cases htr : Trade.new incoming maker (incoming.can_trade maker) tid with
    | error te =>
      rw [htr] at h
      simp at h
      rw [← h]
      rfl
    | ok res =>
      obtain ⟨trade, inc', maker'⟩ := res
      simp only [htr] at h
      cases hrec : fillMakers inc' rest (tid + 1) with
      | error e2 =>
        simp only [hrec] at h
        simp at h
        rw [← h]
        exact ih inc' (tid + 1) e2 hrec
      | ok res2 =>
        obtain ⟨a, b, c, d, f, g, m⟩ := res2
        simp only [hrec] at h
        simp at h

lemma processLevel_error_not_dup (incoming : Order) (lvl : PriceLevel)
    (orders : OrdersIndex) (tid : Nat) (e : OrderbookError)
    (h : processLevel incoming lvl orders tid = .error e) : isDupError e = false := by
  unfold processLevel at h
  cases hfm : fillMakers incoming lvl.orders tid with
  | error e2 =>
    rw [hfm] at h
    simp at h
    rw [← h]
    exact fillMakers_error_not_dup lvl.orders incoming tid e2 hfm
  | ok res =>
    obtain ⟨a, b, c, d, f, g, m⟩ := res
    simp only [hfm] at h
    simp at h

lemma walkLevels_error_not_dup :
    ∀ (levels : List PriceLevel) (incoming : Order) (orders : OrdersIndex)
      (tid : Nat) (e : OrderbookError),
      walkLevels incoming levels orders tid = .error e → isDupError e = false := by
  intro levels
  induction levels with
  | nil => intro incoming orders tid e h; simp [walkLevels] at h
  | cons lvl rest ih =>
    intro incoming orders tid e h
    simp only [walkLevels] at h
    by_cases hc : (incoming.is_closed || !(lvl.matchesB incoming)) = true
    · rw [if_pos hc] at h; simp at h
    · rw [if_neg hc] at h
      cases hpl : processLevel incoming lvl orders tid with
      | error e2 =>
        rw [hpl] at h
        simp at h
        rw [← h]
        exact processLevel_error_not_dup incoming lvl orders tid e2 hpl
      | ok res =>
        obtain ⟨inc1, lvl1, orders1, trades1, tid1, matched1⟩ := res
        simp only [hpl] at h
        cases hwl : walkLevels inc1 rest orders1 tid1 with
        | error e2 =>
          simp only [hwl] at h
          simp at h
          rw [← h]
          exact ih inc1 orders1 tid1 e2 hwl
        | ok res2 =>
          obtain ⟨a, b, c, d, f, g, m⟩ := res2
          simp only [hwl] at h
          simp at h

lemma matchOrder_error_not_dup (ownBefore : Int → Int → Bool) (o : Order)
    (orders : OrdersIndex) (trades : List Trade) (own opp : List PriceLevel)
    (tid : Nat) (e : OrderbookError)
    (h : matchOrder ownBefore o orders trades own opp tid = .error e) :
    isDupError e = false := by
  unfold matchOrder at h
  by_cases h1 : (o.is_post_only &&
      (match peekTopLevels opp orders with
       | some top => o.matchesB top
       | none => false)) = true
  · rw [if_pos h1] at h; simp at h
  · rw [if_neg h1] at h
    by_cases h2 : (o.is_fill_or_kill && !(fokCanFill o o.remaining opp)) = true
    · rw [if_pos h2] at h; simp at h
    · rw [if_neg h2] at h
      cases hwl : walkLevels o opp orders tid with
      | error e2 =>
        rw [hwl] at h
        simp at h
        rw [← h]
        exact walkLevels_error_not_dup opp o orders tid e2 hwl
      | ok res =>
        obtain ⟨inc1, opp1, orders1, newTrades, drained, matched, tid1⟩ := res
        simp only [hwl] at h
        by_cases h3 : inc1.is_immediate_or_cancel = true
        · rw [if_pos h3] at h; simp at h
        · rw [if_neg h3] at h
          by_cases h4 : (!inc1.is_closed && inc1.is_bookable) = true
          · rw [if_pos h4] at h
            cases hli : ladderInsert ownBefore inc1 own with
            | error e2 =>
              rw [hli] at h
              simp at h
              rw [← h]
              unfold ladderInsert at hli
              cases hlp : inc1.limit_price with
              | none => rw [hlp] at hli; simp at hli; rw [← hli]; rfl
              | some p => rw [hlp] at hli; simp at hli
            | ok own1 => rw [hli] at h; simp at h
          · rw [if_neg h4] at h; simp at h

/-- C10 (implicit): `handle_create` rejects an id with `OrderDuplicated`
exactly while that id is in the id index: if the id is present the submit
fails with `OrderDuplicated` and the book is unchanged; if the id is absent
(never inserted, fully filled and removed during a match walk, or
cancelled), the submit can never fail with `OrderDuplicated` — id uniqueness
is not enforced across the book's history. -/
theorem c10_duplicate_only_while_indexed (b : Orderbook) (o : Order) :
    ((lookupOrder b.orders o.id).isSome = true →
      b.handle_create o = (.error (.orderDuplicated o.id), o, b)) ∧
    (lookupOrder b.orders o.id = none →
      ∀ e, (b.handle_create o).1 = .error e → isDupError e = false) := by
  constructor
  · intro hsome
    unfold Orderbook.handle_create
    rw [if_pos hsome]
  · intro hnone e he
    unfold Orderbook.handle_create at he
    rw [hnone] at he
    simp only [Option.isSome_none, Bool.false_eq_true, if_false] at he
    cases hside : o.side with
    | ask =>
      rw [hside] at he
      cases hmo : matchOrder askBefore o b.orders b.trades b.asks b.bids b.nextTradeId with
      | error e2 =>
        rw [hmo] at he
        simp at he
        rw [← he]
        exact matchOrder_error_not_dup askBefore o b.orders b.trades b.asks b.bids
          b.nextTradeId e2 hmo
      | ok res =>
        rw [hmo] at he
        obtain ⟨m, o', orders', trades', own', opp', tid'⟩ := res
        simp at he
    | bid =>
      rw [hside] at he
      cases hmo : matchOrder bidBefore o b.orders b.trades b.bids b.asks b.nextTradeId with
      | error e2 =>
        rw [hmo] at he
        simp at he
        rw [← he]
        exact matchOrder_error_not_dup bidBefore o b.orders b.trades b.bids b.asks
          b.nextTradeId e2 hmo
      | ok res =>
        rw [hmo] at he
        obtain ⟨m, o', orders', trades', own', opp', tid'⟩ := res
        simp at he

/-- Book with order id 1 resting, for the C10 witness. -/
def c10Book : Orderbook :=
  (Orderbook.empty.handle_create (Order.limit_order 1 .ask 100 15)).2.2

/-- A second order reusing id 1. -/
def c10Order : Order := Order.limit_order 1 .bid 50 14

theorem c10_duplicate_only_while_indexed_witness :
    (lookupOrder c10Book.orders c10Order.id).isSome = true ∧
    c10Book.handle_create c10Order =
      (.error (.orderDuplicated c10Order.id), c10Order, c10Book) :=
  ⟨by decide,
   (c10_duplicate_only_while_indexed c10Book c10Order).1 (by decide)⟩

end Matchina
